import Mathlib

set_option maxRecDepth 10000

/-!
Shallow embedding of the weather-checkin room state model.

Sources embedded here:
- `src/api/rooms.js` (serverless HTTP handler; identical logic in
  `src/server.js`): `getRoom`, `summarize`, `roomState`, and the
  create/join/select/end/toggle_anonymous actions of `handler`.
- `src/src/realtime.ts` (`RealtimeClient`): the name-keyed `joinRoom`
  upsert and `getState`.
- `src/unnamed/part_000` (socket.io server): the `select` event handler,
  which validates the symbol against the room catalog.

JS `Map` objects are modelled as insertion-ordered association lists (JS
Map iteration order is insertion order; `Map.set` on an existing key
updates the entry in place). JS truthiness of `p.symbol` (the test
`if (p.symbol)`) is modelled explicitly: `null`/`undefined` become
`none`, and the empty string is falsy. Randomly generated participant ids
and `Date.now()` readings are passed as explicit parameters.
-/

/-- Lookup of the first binding for a key in an association list, the
model of `Map.get` / `Map.has`. -/
def alookup {β : Type} : List (String × β) → String → Option β
  | [], _ => none
  | (k, v) :: rest, key => if k = key then some v else alookup rest key

/-- Model of `Map.set`: replace the first binding for the key in place if
present, else append the new binding (JS Map insertion-order semantics). -/
def aset {β : Type} : List (String × β) → String → β → List (String × β)
  | [], key, v => [(key, v)]
  | (k, v0) :: rest, key, v =>
    if k = key then (key, v) :: rest else (k, v0) :: aset rest key v

/-- A stored participant record, `{ name, symbol }` in the JS sources.
Here `symbol := none` models JS `null`/`undefined`. -/
structure Participant where
  name : String
  symbol : Option String
deriving Repr, DecidableEq

/-- A room record as created by `getRoom` in `src/api/rooms.js`. -/
structure Room where
  participants : List (String × Participant)
  symbols : List String
  ended : Bool
  createdAt : Nat
  anonymous : Bool
deriving Repr, DecidableEq

/-- The fixed symbol catalog `['sun','partly','cloud','rain','storm']`. -/
def defaultSymbols : List String := ["sun", "partly", "cloud", "rain", "storm"]

/-- The fresh room that `getRoom` inserts when `roomId` is absent. -/
def newRoom (now : Nat) : Room :=
  { participants := [], symbols := defaultSymbols, ended := false,
    createdAt := now, anonymous := false }

/-- The process-wide `rooms` map. -/
abbrev Store := List (String × Room)

/-- Model of `getRoom(roomId)` from `src/api/rooms.js`: lazily create the
room on first reference; returns the room and the (possibly grown) store. -/
def getRoom (s : Store) (rid : String) (now : Nat) : Room × Store :=
  match alookup s rid with
  | some r => (r, s)
  | none => (newRoom now, aset s rid (newRoom now))

/-- JS truthiness of a stored `symbol` field: `null`/`undefined` and the
empty string are falsy, every other string is truthy. -/
def truthySym : Option String → Bool
  | none => false
  | some s => !(s = "")

/-- Model of `counts[sym] = (counts[sym] || 0) + 1`: increment the first
binding for the key, or append a fresh binding with count 1. -/
def bump : List (String × Nat) → String → List (String × Nat)
  | [], k => [(k, 1)]
  | (k0, v) :: rest, k =>
    if k0 = k then (k0, v + 1) :: rest else (k0, v) :: bump rest k

/-- Model of `summarize(room)` from `src/api/rooms.js` / `src/server.js`:
initialize every catalog symbol to 0, then bump one bucket per participant
whose `symbol` is truthy. -/
def summarize (room : Room) : List (String × Nat) :=
  List.foldl
    (fun counts kp =>
      match (Prod.snd kp).symbol with
      | none => counts
      | some sym => if sym = "" then counts else bump counts sym)
    (room.symbols.map (fun sym => (sym, 0)))
    room.participants

/-- A client-visible state snapshot, the shape built by `roomState`. -/
structure Snapshot where
  roomId : String
  createdAt : Nat
  ended : Bool
  anonymous : Bool
  symbols : List String
  participants : List Participant
  summary : List (String × Nat)
deriving Repr, DecidableEq

/-- The snapshot `roomState` builds from a room value. -/
def mkSnapshot (rid : String) (room : Room) : Snapshot :=
  { roomId := rid, createdAt := room.createdAt, ended := room.ended,
    anonymous := room.anonymous, symbols := room.symbols,
    participants := room.participants.map
      (fun kp => { name := (Prod.snd kp).name, symbol := (Prod.snd kp).symbol }),
    summary := summarize room }

/-- Model of `roomState(roomId)`: fetch (lazily creating) the room and
build its snapshot; returns the snapshot with the possibly-grown store. -/
def roomState (s : Store) (rid : String) (now : Nat) : Snapshot × Store :=
  let rs := getRoom s rid now
  (mkSnapshot rid rs.1, rs.2)

/-- Model of `s.slice(0, n)` on a JS string: the first `n` characters. -/
def sliceChars (s : String) (n : Nat) : String :=
  (s.toList.take n).asString

/-- Model of `String(name || 'Gäst').slice(0, 40)`: default filler for an
absent or empty name, then truncation to 40 characters. -/
def normalizeName (name : Option String) : String :=
  let base :=
    match name with
    | none => "Gäst"
    | some s => if s = "" then "Gäst" else s
  sliceChars base 40

/-- The `create` action of the HTTP handler: materialize the room. -/
def httpCreate (s : Store) (rid : String) (now : Nat) : Store :=
  (getRoom s rid now).2

/-- The room after the `join` action stores its new participant: `Map.set`
under the fresh id `pid` of a record with the normalized name and
`symbol: null`. -/
def joinedRoom (r : Room) (pid : String) (name : Option String) : Room :=
  let p : Participant := { name := normalizeName name, symbol := none }
  { r with participants := aset r.participants pid p }

/-- The `join` action of the HTTP handler: fetch the room and `Map.set` a
participant under a freshly generated random id `pid`, with the
normalized name and `symbol: null`. -/
def httpJoin (s : Store) (rid : String) (pid : String) (name : Option String)
    (now : Nat) : Store :=
  let rs := getRoom s rid now
  aset rs.2 rid (joinedRoom rs.1 pid name)

/-- The name-lookup loop of the `select` action: set the symbol of the
first participant (in insertion order) whose stored name equals the given
name, then `break`; later entries are untouched; no match changes
nothing. -/
def selectFirst : List (String × Participant) → String → String →
    List (String × Participant)
  | [], _, _ => []
  | (pid, p) :: rest, name, sym =>
    if p.name = name then (pid, { p with symbol := some sym }) :: rest
    else (pid, p) :: selectFirst rest name sym

/-- The `select` action of the HTTP handler (`src/api/rooms.js` lines
82-102): fetch the room; if `ended`, respond 400 and change nothing
(result flag `false`); otherwise run the name-lookup loop and respond ok
(`true`). No validation of `sym` against the room catalog is performed. -/
def httpSelect (s : Store) (rid : String) (name : String) (sym : String)
    (now : Nat) : Bool × Store :=
  let rs := getRoom s rid now
  if rs.1.ended then (false, rs.2)
  else
    (true, aset rs.2 rid
      { rs.1 with participants := selectFirst rs.1.participants name sym })

/-- The `end` action of the HTTP handler: set `ended = true`. -/
def httpEnd (s : Store) (rid : String) (now : Nat) : Store :=
  let rs := getRoom s rid now
  aset rs.2 rid { rs.1 with ended := true }

/-- The `toggle_anonymous` action of the HTTP handler: set `anonymous` to
`Boolean(anonymous)`. -/
def httpToggleAnonymous (s : Store) (rid : String) (b : Bool) (now : Nat) :
    Store :=
  let rs := getRoom s rid now
  aset rs.2 rid { rs.1 with anonymous := b }

/-- The GET branch of the HTTP handler: `roomState(req.query.roomId)`.
Always returns a snapshot; an unknown id is lazily materialized. -/
def httpGetState (s : Store) (rid : String) (now : Nat) : Snapshot × Store :=
  roomState s rid now

/-- One HTTP mutation request, with the generated random ids and the
clock reading passed explicitly. -/
inductive Op where
  | create (rid : String) (now : Nat)
  | join (rid pid : String) (name : Option String) (now : Nat)
  | select (rid name sym : String) (now : Nat)
  | endRound (rid : String) (now : Nat)
  | toggleAnonymous (rid : String) (b : Bool) (now : Nat)
  | getState (rid : String) (now : Nat)
deriving Repr, DecidableEq

/-- Effect of one request on the store. -/
def applyOp (s : Store) : Op → Store
  | Op.create rid now => httpCreate s rid now
  | Op.join rid pid name now => httpJoin s rid pid name now
  | Op.select rid name sym now => (httpSelect s rid name sym now).2
  | Op.endRound rid now => httpEnd s rid now
  | Op.toggleAnonymous rid b now => httpToggleAnonymous s rid b now
  | Op.getState rid now => (httpGetState s rid now).2

/-- Effect of a request sequence on the store. -/
def applyOps (s : Store) (ops : List Op) : Store :=
  List.foldl applyOp s ops

/-- Whether room `rid` exists in the store with `ended = true`. -/
def endedAt (s : Store) (rid : String) : Bool :=
  match alookup s rid with
  | some r => r.ended
  | none => false

/-- Sum of all buckets of a summary object. -/
def sumCounts (counts : List (String × Nat)) : Nat :=
  List.foldl (fun a kv => a + Prod.snd kv) 0 counts

/-- Number of participants with a non-null `symbol`. -/
def countNonNull (ps : List (String × Participant)) : Nat :=
  (ps.filter (fun kp => ((Prod.snd kp).symbol).isSome)).length

/-- Number of participants with a truthy `symbol` (non-null and
non-empty), the condition `summarize` actually counts. -/
def countTruthy (ps : List (String × Participant)) : Nat :=
  (ps.filter (fun kp => truthySym (Prod.snd kp).symbol)).length

/-- Model of `RealtimeClient.joinRoom` (`src/src/realtime.ts`), effect on
the participant list: `findIndex` of the first participant with the given
name; if found, replace it with `{ name, symbol: existing.symbol }`
(preserving the stored symbol); else `push` `{ name, symbol: null }`. -/
def rtJoin : List Participant → String → List Participant
  | [], name => [{ name := name, symbol := none }]
  | p :: rest, name =>
    if p.name = name then { name := name, symbol := p.symbol } :: rest
    else p :: rtJoin rest name

/-- Model of `RealtimeClient.getState` (`src/src/realtime.ts`): `null`
when no room id is joined, else `rooms.get(currentRoomId) || null`. The
client stores full snapshots; only presence or absence matters here. -/
def rtGetState (rooms : List (String × Snapshot)) (cur : Option String) :
    Option Snapshot :=
  match cur with
  | none => none
  | some rid => alookup rooms rid

/-- Model of the `select` event handler of the socket.io server
(`src/unnamed/part_000` lines 71-80), effect on one room: the room is
unchanged when it is ended, when the symbol is outside `room.symbols`, or
when the socket id has no participant; otherwise the participant symbol
is set. -/
def socketSelect (room : Room) (socketId : String) (sym : String) : Room :=
  if room.ended then room
  else if !(room.symbols.contains sym) then room
  else
    match alookup room.participants socketId with
    | none => room
    | some p =>
      let p2 : Participant := { p with symbol := some sym }
      { room with participants := aset room.participants socketId p2 }

/-- Concrete store for the C1 counterexample: create, join Alice, then a
select carrying the empty string as symbol. -/
def c1Store : Store :=
  applyOps [] [Op.create "r" 0, Op.join "r" "p1" (some "Alice") 0,
    Op.select "r" "Alice" "" 0]

/-- Concrete store for the C2 failing input: one room with participant
Alice, round not ended. -/
def c2Store : Store :=
  [("r", { participants := [("p1", { name := "Alice", symbol := none })],
           symbols := defaultSymbols, ended := false, createdAt := 0,
           anonymous := false })]

/-- Store after one HTTP join of Alice. -/
def c3StoreOnce : Store :=
  applyOps [] [Op.create "r" 0, Op.join "r" "p1" (some "Alice") 0]

/-- Store after two HTTP joins with the same name Alice (fresh random
participant ids, as the handler generates). -/
def c3StoreTwice : Store :=
  applyOp c3StoreOnce (Op.join "r" "p2" (some "Alice") 0)

/-- Concrete ended-room store for the C5 witness. -/
def c5Store : Store :=
  [("r", { participants := [("p1", { name := "Alice", symbol := some "sun" })],
           symbols := defaultSymbols, ended := true, createdAt := 3,
           anonymous := false })]

/-- Concrete request batch for the C5 witness. -/
def c5Ops : List Op :=
  [Op.join "r" "p2" (some "Bob") 4, Op.getState "r" 5,
   Op.toggleAnonymous "r" true 6]

/-- A 41-character name for the C7 witness. -/
def longName : String :=
  "aaaaaaaaaaaaaaaaaaaaaaaaaaaaaaaaaaaaaaaaa"

/-- Store of the C8 scenario: create room, join Alice, join Bob, Alice
selects sun, Bob selects rain. -/
def c8Store : Store :=
  applyOps [] [Op.create "room1" 0,
    Op.join "room1" "p1" (some "Alice") 0,
    Op.join "room1" "p2" (some "Bob") 0,
    Op.select "room1" "Alice" "sun" 0,
    Op.select "room1" "Bob" "rain" 0]

/-- Concrete unended room for the C10 witness. -/
def c10Room : Room :=
  { participants := [("p1", { name := "Alice", symbol := none }),
                     ("p2", { name := "Bob", symbol := some "rain" })],
    symbols := defaultSymbols, ended := false, createdAt := 0,
    anonymous := false }

/-- Concrete store for the C10 witness. -/
def c10Store : Store := [("r", c10Room)]

theorem alookup_aset_self {β : Type} (l : List (String × β)) (k : String)
    (v : β) : alookup (aset l k v) k = some v := by
  induction l with
  | nil => simp [aset, alookup]
  | cons kv rest ih =>
    obtain ⟨k0, v0⟩ := kv
    by_cases h : k0 = k
    · simp [aset, alookup, h]
    · simp [aset, alookup, h, ih]

theorem alookup_aset_ne {β : Type} (l : List (String × β)) (k k2 : String)
    (v : β) (h : k ≠ k2) : alookup (aset l k v) k2 = alookup l k2 := by
  induction l with
  | nil => simp [aset, alookup, h]
  | cons kv rest ih =>
    obtain ⟨k0, v0⟩ := kv
    by_cases h0 : k0 = k
    · subst h0
      simp [aset, alookup, h]
    · simp [aset, alookup, h0, ih]

theorem aset_eq_of_alookup {β : Type} (l : List (String × β)) (k : String)
    (v : β) (h : alookup l k = some v) : aset l k v = l := by
  induction l with
  | nil => simp [alookup] at h
  | cons kv rest ih =>
    obtain ⟨k0, v0⟩ := kv
    by_cases h0 : k0 = k
    · subst h0
      simp [alookup] at h
      simp [aset, h]
    · simp [alookup, h0] at h
      simp [aset, h0, ih h]

theorem getRoom_of_mem (s : Store) (rid : String) (now : Nat) (r : Room)
    (h : alookup s rid = some r) : getRoom s rid now = (r, s) := by
  simp [getRoom, h]

theorem getRoom_of_absent (s : Store) (rid : String) (now : Nat)
    (h : alookup s rid = none) :
    getRoom s rid now = (newRoom now, aset s rid (newRoom now)) := by
  simp [getRoom, h]

theorem httpEnd_noop (s : Store) (rid : String) (now : Nat) (r : Room)
    (hl : alookup s rid = some r) (he : r.ended = true) :
    httpEnd s rid now = s := by
  simp only [httpEnd, getRoom_of_mem s rid now r hl]
  have hr : ({ r with ended := true } : Room) = r := by
    cases r
    simp_all
  rw [hr]
  exact aset_eq_of_alookup s rid r hl

/-- C6: endRound is idempotent. For every store, room id and clock
readings, applying the end action twice yields exactly the same store as
applying it once, and after one application the room exists with
`ended = true`; the repeat call is a no-op. -/
theorem claim6_end_idempotent (s : Store) (rid : String) (n1 n2 : Nat) :
    httpEnd (httpEnd s rid n1) rid n2 = httpEnd s rid n1
    ∧ endedAt (httpEnd s rid n1) rid = true := by
  have hlook : alookup (httpEnd s rid n1) rid =
      some { (getRoom s rid n1).1 with ended := true } := by
    simp only [httpEnd]
    exact alookup_aset_self _ _ _
  exact ⟨httpEnd_noop _ _ _ _ hlook rfl, by simp [endedAt, hlook]⟩

/-- C8: scenario correctness. From the empty store, create room, join
Alice, join Bob, Alice selects sun, Bob selects rain; the summary of the
resulting snapshot is `{sun:1, partly:0, cloud:0, rain:1, storm:0}`. -/
theorem claim8_scenario :
    (roomState c8Store "room1" 0).1.summary =
      [("sun", 1), ("partly", 0), ("cloud", 0), ("rain", 1), ("storm", 0)] := by
  decide

/-- C2 (code bug evidence): the HTTP select action performs no catalog
validation. On a room where Alice has joined and the round is open,
selecting the out-of-catalog symbol "fog" succeeds (ok response), changes
the store, and leaves Alice with the stored symbol "fog", which is not a
member of the room catalog. -/
theorem claim2_select_accepts_invalid :
    defaultSymbols.contains "fog" = false
    ∧ (httpSelect c2Store "r" "Alice" "fog" 0).1 = true
    ∧ (httpSelect c2Store "r" "Alice" "fog" 0).2 ≠ c2Store
    ∧ alookup (httpSelect c2Store "r" "Alice" "fog" 0).2 "r" =
        some { participants := [("p1", { name := "Alice", symbol := some "fog" })],
               symbols := defaultSymbols, ended := false, createdAt := 0,
               anonymous := false } := by
  decide

/-- Socket transport contrast for the select boundary: the socket.io
handler does validate, so an out-of-catalog symbol leaves the room
entirely unchanged. -/
theorem socketSelect_rejects_invalid (room : Room) (sid sym : String)
    (h : room.symbols.contains sym = false) :
    socketSelect room sid sym = room := by
  unfold socketSelect
  rw [h]
  simp

/-- Closed instance of the socket-side rejection at a concrete room. -/
theorem socketSelect_rejects_invalid_example :
    socketSelect (newRoom 0) "sock1" "fog" = newRoom 0 :=
  socketSelect_rejects_invalid (newRoom 0) "sock1" "fog" (by decide)

/-- C1 (counterexample): after create, join Alice, and a select carrying
the empty string, Alice has a non-null stored symbol, yet the summary
buckets sum to 0: the sum equals the number of truthy (non-empty)
selections, not the number of non-null ones. -/
theorem claim1_counterexample :
    countNonNull (getRoom c1Store "r" 0).1.participants = 1
    ∧ sumCounts (roomState c1Store "r" 0).1.summary = 0 := by
  decide

/-- C3 (counterexample): the HTTP join action takes no identity and
appends a fresh record on every call, so joining twice with the same name
Alice duplicates the participant: one record after one join, two records
after two joins. -/
theorem claim3_counterexample :
    (getRoom c3StoreOnce "r" 0).1.participants.length = 1
    ∧ (getRoom c3StoreTwice "r" 0).1.participants.length = 2
    ∧ c3StoreTwice ≠ c3StoreOnce := by
  decide

/-- C4 (counterexample): a GET on the never-referenced room id "zzz"
against the empty store returns a full snapshot (not a null/not-found
result) and materializes the room in the store. -/
theorem claim4_counterexample :
    (httpGetState ([] : Store) "zzz" 5).1 = mkSnapshot "zzz" (newRoom 5)
    ∧ alookup (httpGetState ([] : Store) "zzz" 5).2 "zzz" = some (newRoom 5)
    ∧ (httpGetState ([] : Store) "zzz" 5).2 ≠ ([] : Store) := by
  decide

theorem sumCounts_foldl_acc (l : List (String × Nat)) (a : Nat) :
    List.foldl (fun x kv => x + Prod.snd kv) a l =
      a + List.foldl (fun x kv => x + Prod.snd kv) 0 l := by
  induction l generalizing a with
  | nil => simp
  | cons kv rest ih =>
    simp only [List.foldl]
    rw [ih (a + kv.2), ih (0 + kv.2)]
    omega

theorem sumCounts_cons (kv : String × Nat) (rest : List (String × Nat)) :
    sumCounts (kv :: rest) = kv.2 + sumCounts rest := by
  simp only [sumCounts, List.foldl]
  rw [sumCounts_foldl_acc]
  omega

theorem sumCounts_bump (l : List (String × Nat)) (k : String) :
    sumCounts (bump l k) = sumCounts l + 1 := by
  induction l with
  | nil => simp [bump, sumCounts, List.foldl]
  | cons kv rest ih =>
    obtain ⟨k0, v⟩ := kv
    by_cases h : k0 = k
    · rw [show bump ((k0, v) :: rest) k = (k0, v + 1) :: rest by simp [bump, h]]
      rw [sumCounts_cons, sumCounts_cons]
      omega
    · rw [show bump ((k0, v) :: rest) k = (k0, v) :: bump rest k by simp [bump, h]]
      rw [sumCounts_cons, sumCounts_cons, ih]
      omega

theorem sumCounts_zeros (syms : List String) :
    sumCounts (syms.map (fun sym => (sym, 0))) = 0 := by
  induction syms with
  | nil => rfl
  | cons s rest ih => simp [List.map, sumCounts_cons, ih]

theorem countTruthy_cons (kp : String × Participant)
    (rest : List (String × Participant)) :
    countTruthy (kp :: rest) =
      (if truthySym (Prod.snd kp).symbol then 1 else 0) + countTruthy rest := by
  by_cases h : truthySym (Prod.snd kp).symbol
  · simp [countTruthy, List.filter, h]
    omega
  · simp [countTruthy, List.filter, h]

theorem sumCounts_summarize_fold (ps : List (String × Participant))
    (init : List (String × Nat)) :
    sumCounts (List.foldl
      (fun counts kp =>
        match (Prod.snd kp).symbol with
        | none => counts
        | some sym => if sym = "" then counts else bump counts sym)
      init ps) = sumCounts init + countTruthy ps := by
  induction ps generalizing init with
  | nil => simp [countTruthy]
  | cons kp rest ih =>
    simp only [List.foldl]
    rw [ih, countTruthy_cons]
    cases hsym : (Prod.snd kp).symbol with
    | none => simp [truthySym, hsym]
    | some sym =>
      by_cases he : sym = ""
      · simp [truthySym, hsym, he]
      · simp [truthySym, hsym, he, sumCounts_bump]
        omega

theorem alookup_bump_isSome (l : List (String × Nat)) (k k2 : String)
    (h : (alookup l k2).isSome = true) :
    (alookup (bump l k) k2).isSome = true := by
  induction l with
  | nil => simp [alookup] at h
  | cons kv rest ih =>
    obtain ⟨k0, v⟩ := kv
    simp only [alookup] at h
    by_cases h0 : k0 = k
    · rw [show bump ((k0, v) :: rest) k = (k0, v + 1) :: rest by simp [bump, h0]]
      by_cases h2 : k0 = k2
      · simp [alookup, h2]
      · simpa [alookup, h2] using (by simpa [h2] using h)
    · rw [show bump ((k0, v) :: rest) k = (k0, v) :: bump rest k by simp [bump, h0]]
      by_cases h2 : k0 = k2
      · simp [alookup, h2]
      · simpa [alookup, h2] using ih (by simpa [h2] using h)

theorem alookup_zeros_isSome (syms : List String) (sym : String)
    (h : sym ∈ syms) :
    (alookup (syms.map (fun s2 => (s2, 0))) sym).isSome = true := by
  induction syms with
  | nil => simp at h
  | cons s rest ih =>
    by_cases h2 : s = sym
    · simp [alookup, h2]
    · rcases List.mem_cons.mp h with h1 | h1
      · exact absurd h1.symm h2
      · simp [alookup, h2, ih h1]

theorem alookup_summarize_fold_isSome (ps : List (String × Participant))
    (init : List (String × Nat)) (sym : String)
    (h : (alookup init sym).isSome = true) :
    (alookup (List.foldl
      (fun counts kp =>
        match (Prod.snd kp).symbol with
        | none => counts
        | some s2 => if s2 = "" then counts else bump counts s2)
      init ps) sym).isSome = true := by
  induction ps generalizing init with
  | nil => simpa using h
  | cons kp rest ih =>
    simp only [List.foldl]
    apply ih
    cases hsym : (Prod.snd kp).symbol with
    | none => simpa [hsym] using h
    | some s2 =>
      by_cases he : s2 = ""
      · simpa [hsym, he] using h
      · simp only [hsym, he]
        simpa [he] using alookup_bump_isSome init s2 sym h

/-- C1 (amended): the summary of every state snapshot is `summarize` of
the room; `summarize` gives every symbol of the room catalog a bucket;
and the buckets sum to the number of participants whose stored symbol is
non-null and non-empty (JS-truthy). The original claim counted all
non-null symbols; an empty-string symbol is storable through the HTTP
select yet contributes to no bucket (see the counterexample). -/
theorem claim1_summary_derived (s : Store) (rid : String) (now : Nat)
    (room : Room) :
    (roomState s rid now).1.summary = summarize (getRoom s rid now).1
    ∧ sumCounts (summarize room) = countTruthy room.participants
    ∧ (∀ sym, sym ∈ room.symbols →
        (alookup (summarize room) sym).isSome = true) := by
  refine ⟨rfl, ?_, ?_⟩
  · unfold summarize
    rw [sumCounts_summarize_fold, sumCounts_zeros]
    omega
  · intro sym hmem
    unfold summarize
    exact alookup_summarize_fold_isSome _ _ _ (alookup_zeros_isSome _ _ hmem)

/-- Closed instance of the amended C1 statement at the counterexample
store. -/
theorem claim1_summary_derived_witness :
    (roomState c1Store "r" 0).1.summary = summarize (getRoom c1Store "r" 0).1
    ∧ sumCounts (summarize (getRoom c1Store "r" 0).1) =
        countTruthy (getRoom c1Store "r" 0).1.participants
    ∧ (alookup (summarize (getRoom c1Store "r" 0).1) "sun").isSome = true := by
  obtain ⟨h1, h2, h3⟩ :=
    claim1_summary_derived c1Store "r" 0 (getRoom c1Store "r" 0).1
  exact ⟨h1, h2, h3 "sun" (by decide)⟩

theorem endedAt_aset_other (s : Store) (k rid : String) (r : Room)
    (h : k ≠ rid) : endedAt (aset s k r) rid = endedAt s rid := by
  simp [endedAt, alookup_aset_ne s k rid r h]

theorem endedAt_aset_self (s : Store) (rid : String) (r : Room)
    (h : r.ended = true) : endedAt (aset s rid r) rid = true := by
  simp [endedAt, alookup_aset_self, h]

theorem httpSelect_of_ended (s : Store) (rid name sym : String) (now : Nat)
    (h : endedAt s rid = true) :
    httpSelect s rid name sym now = (false, s) := by
  cases hl : alookup s rid with
  | none => simp [endedAt, hl] at h
  | some r =>
    have hr : r.ended = true := by simpa [endedAt, hl] using h
    simp only [httpSelect, getRoom_of_mem s rid now r hl]
    simp [hr]

theorem endedAt_getRoom_snd (s : Store) (rid k : String) (now : Nat)
    (h : endedAt s rid = true) : endedAt (getRoom s k now).2 rid = true := by
  cases hl : alookup s k with
  | some r => simpa [getRoom, hl] using h
  | none =>
    simp only [getRoom, hl]
    by_cases hk : k = rid
    · subst hk
      simp [endedAt, hl] at h
    · rw [endedAt_aset_other s k rid _ hk]
      exact h

theorem endedAt_applyOp (s : Store) (rid : String) (op : Op)
    (h : endedAt s rid = true) : endedAt (applyOp s op) rid = true := by
  obtain ⟨r, hl, hr⟩ : ∃ r, alookup s rid = some r ∧ r.ended = true := by
    cases hl : alookup s rid with
    | none => simp [endedAt, hl] at h
    | some r => exact ⟨r, rfl, by simpa [endedAt, hl] using h⟩
  cases op with
  | create k now =>
    exact endedAt_getRoom_snd s rid k now h
  | join k pid name now =>
    by_cases hk : k = rid
    · subst hk
      simp only [applyOp, httpJoin, getRoom_of_mem s k now r hl]
      exact endedAt_aset_self _ _ _ hr
    · simp only [applyOp, httpJoin]
      rw [endedAt_aset_other _ k rid _ hk]
      exact endedAt_getRoom_snd s rid k now h
  | select k name sym now =>
    by_cases hk : k = rid
    · subst hk
      have hsel := httpSelect_of_ended s k name sym now h
      simp [applyOp, hsel, h]
    · simp only [applyOp, httpSelect]
      by_cases hend : (getRoom s k now).1.ended
      · simp only [hend, if_true]
        exact endedAt_getRoom_snd s rid k now h
      · simp only [hend, if_false, Bool.false_eq_true]
        rw [endedAt_aset_other _ k rid _ hk]
        exact endedAt_getRoom_snd s rid k now h
  | endRound k now =>
    by_cases hk : k = rid
    · subst hk
      simp only [applyOp, httpEnd]
      exact endedAt_aset_self _ _ _ rfl
    · simp only [applyOp, httpEnd]
      rw [endedAt_aset_other _ k rid _ hk]
      exact endedAt_getRoom_snd s rid k now h
  | toggleAnonymous k b now =>
    by_cases hk : k = rid
    · subst hk
      simp only [applyOp, httpToggleAnonymous, getRoom_of_mem s k now r hl]
      exact endedAt_aset_self _ _ _ hr
    · simp only [applyOp, httpToggleAnonymous]
      rw [endedAt_aset_other _ k rid _ hk]
      exact endedAt_getRoom_snd s rid k now h
  | getState k now =>
    simp only [applyOp, httpGetState, roomState]
    exact endedAt_getRoom_snd s rid k now h

theorem endedAt_applyOps (s : Store) (rid : String) (ops : List Op)
    (h : endedAt s rid = true) : endedAt (applyOps s ops) rid = true := by
  induction ops generalizing s with
  | nil => simpa [applyOps] using h
  | cons op rest ih =>
    simp only [applyOps, List.foldl]
    exact ih _ (endedAt_applyOp s rid op h)

/-- C5: post-end invariant. Once room `rid` is ended, it stays ended
across every further request sequence, and any select request against it,
for any identity and any symbol, is rejected (400) with the store
returned entirely unchanged: no participant symbol mutates after the
round has ended. -/
theorem claim5_post_end_invariant (s : Store) (rid : String)
    (h : endedAt s rid = true) (ops : List Op) :
    endedAt (applyOps s ops) rid = true
    ∧ ∀ (name sym : String) (now : Nat),
        httpSelect (applyOps s ops) rid name sym now =
          (false, applyOps s ops) := by
  have h2 := endedAt_applyOps s rid ops h
  exact ⟨h2, fun name sym now => httpSelect_of_ended _ _ _ _ _ h2⟩

/-- Closed instance of the post-end invariant at a concrete ended room,
request batch, and select call. -/
theorem claim5_post_end_invariant_witness :
    endedAt (applyOps c5Store c5Ops) "r" = true
    ∧ httpSelect (applyOps c5Store c5Ops) "r" "Alice" "cloud" 9 =
        (false, applyOps c5Store c5Ops) := by
  obtain ⟨h1, h2⟩ := claim5_post_end_invariant c5Store "r" (by decide) c5Ops
  exact ⟨h1, h2 "Alice" "cloud" 9⟩

theorem sliceChars_length (s : String) (n : Nat) :
    (sliceChars s n).length = min n s.length := by
  have h : (sliceChars s n).length = (s.data.take n).length := rfl
  rw [h, List.length_take]
  rfl

/-- C7: the join action stores the normalized display name. The record
stored under the fresh participant id has name `normalizeName name` and a
null symbol; 41-plus-character names are truncated to exactly their first
40 characters; an absent or empty name stores the default filler Gäst. -/
theorem claim7_join_name_normalization (s : Store) (rid pid : String)
    (name : Option String) (now : Nat) :
    (∃ room, alookup (httpJoin s rid pid name now) rid = some room
       ∧ alookup room.participants pid =
           some { name := normalizeName name, symbol := none })
    ∧ (∀ str : String, 41 ≤ str.length →
         normalizeName (some str) = sliceChars str 40
         ∧ (normalizeName (some str)).length = 40)
    ∧ normalizeName none = "Gäst" ∧ normalizeName (some "") = "Gäst" := by
  refine ⟨?_, ?_, rfl, rfl⟩
  · refine ⟨joinedRoom (getRoom s rid now).1 pid name, ?_, ?_⟩
    · simp only [httpJoin]
      exact alookup_aset_self _ _ _
    · simp only [joinedRoom]
      exact alookup_aset_self _ _ _
  · intro str hlen
    have hne : ¬(str = "") := by
      intro h0
      rw [h0] at hlen
      simp at hlen
    constructor
    · simp [normalizeName, hne]
    · simp only [normalizeName, hne, if_false]
      rw [sliceChars_length]
      omega

/-- Closed instance of C7 at a 41-character name and an absent name. -/
theorem claim7_join_name_normalization_witness :
    (∃ room, alookup (httpJoin ([] : Store) "r" "p1" (some longName) 0) "r" =
          some room
       ∧ alookup room.participants "p1" =
           some { name := normalizeName (some longName), symbol := none })
    ∧ normalizeName (some longName) = sliceChars longName 40
    ∧ (normalizeName (some longName)).length = 40
    ∧ normalizeName none = "Gäst" := by
  obtain ⟨h1, h2, h3, h4⟩ :=
    claim7_join_name_normalization ([] : Store) "r" "p1" (some longName) 0
  obtain ⟨ha, hb⟩ := h2 longName (by decide)
  exact ⟨h1, ha, hb, h3⟩

theorem rtJoin_of_mem (ps : List Participant) (name : String)
    (h : ∃ p ∈ ps, p.name = name) : rtJoin ps name = ps := by
  induction ps with
  | nil => simp at h
  | cons p rest ih =>
    obtain ⟨q, hq, hname⟩ := h
    by_cases hp : p.name = name
    · have hrec : ({ name := name, symbol := p.symbol } : Participant) = p := by
        cases p
        simp_all
    
      simp [rtJoin, hp, hrec]
    · rcases List.mem_cons.mp hq with h1 | h1
      · subst h1
        exact absurd hname hp
      · simp [rtJoin, hp, ih ⟨q, h1, hname⟩]

theorem rtJoin_has_name (ps : List Participant) (name : String) :
    ∃ p ∈ rtJoin ps name, p.name = name := by
  induction ps with
  | nil => exact ⟨{ name := name, symbol := none }, by simp [rtJoin], rfl⟩
  | cons p rest ih =>
    by_cases hp : p.name = name
    · exact ⟨{ name := name, symbol := p.symbol }, by simp [rtJoin, hp], rfl⟩
    · obtain ⟨q, hq, hname⟩ := ih
      refine ⟨q, ?_, hname⟩
      simp only [rtJoin, hp, if_false]
      exact List.mem_cons_of_mem p hq

theorem rtJoin_of_absent (ps : List Participant) (name : String)
    (h : ∀ p ∈ ps, p.name ≠ name) :
    rtJoin ps name = ps ++ [{ name := name, symbol := none }] := by
  induction ps with
  | nil => rfl
  | cons p rest ih =>
    have hp : p.name ≠ name := h p (by simp)
    simp [rtJoin, hp, ih (fun q hq => h q (by simp [hq]))]

/-- C3 (amended): the name-keyed `RealtimeClient.joinRoom` is an
idempotent upsert: joining twice with the same name equals joining once;
when the name is already present the participant list is entirely
unchanged (in particular the existing selectedSymbol is preserved); when
it is absent, one fresh record with a null symbol is appended. The HTTP
join action, by contrast, takes no identity and appends a fresh record
on every call, so it duplicates a same-named participant (see the
counterexample). -/
theorem claim3_rtJoin_upsert (ps : List Participant) (name : String) :
    rtJoin (rtJoin ps name) name = rtJoin ps name
    ∧ ((∃ p ∈ ps, p.name = name) → rtJoin ps name = ps)
    ∧ ((∀ p ∈ ps, p.name ≠ name) →
        rtJoin ps name = ps ++ [{ name := name, symbol := none }]) :=
  ⟨rtJoin_of_mem _ _ (rtJoin_has_name ps name),
   rtJoin_of_mem ps name,
   rtJoin_of_absent ps name⟩

/-- Closed instance of the amended C3 statement: rejoining Alice keeps
her record (and selected symbol) as is. -/
theorem claim3_rtJoin_upsert_witness :
    rtJoin (rtJoin [{ name := "Alice", symbol := some "sun" }] "Alice") "Alice"
      = rtJoin [{ name := "Alice", symbol := some "sun" }] "Alice"
    ∧ rtJoin [{ name := "Alice", symbol := some "sun" }] "Alice"
      = [{ name := "Alice", symbol := some "sun" }] := by
  obtain ⟨h1, h2, h3⟩ :=
    claim3_rtJoin_upsert [{ name := "Alice", symbol := some "sun" }] "Alice"
  exact ⟨h1, h2 ⟨{ name := "Alice", symbol := some "sun" }, by simp, rfl⟩⟩

/-- C4 (amended): the HTTP getState on a never-referenced room id does
not report not-found: it materializes a fresh default room and returns a
snapshot of it. The null/not-found read result belongs to
`RealtimeClient.getState`, which yields null when no room id is current
or when the current id has no stored state. -/
theorem claim4_getstate_materializes (s : Store) (rid : String) (now : Nat)
    (h : alookup s rid = none) :
    (httpGetState s rid now).1 = mkSnapshot rid (newRoom now)
    ∧ alookup (httpGetState s rid now).2 rid = some (newRoom now)
    ∧ (∀ rooms : List (String × Snapshot), rtGetState rooms none = none)
    ∧ (∀ rooms : List (String × Snapshot), alookup rooms rid = none →
         rtGetState rooms (some rid) = none) := by
  refine ⟨?_, ?_, fun rooms => rfl, fun rooms h2 => by simp [rtGetState, h2]⟩
  · simp [httpGetState, roomState, getRoom, h]
  · simp only [httpGetState, roomState, getRoom, h]
    exact alookup_aset_self _ _ _

/-- Closed instance of the amended C4 statement at the empty store and an
unknown id. -/
theorem claim4_getstate_materializes_witness :
    alookup ([] : Store) "zzz" = none
    ∧ (httpGetState ([] : Store) "zzz" 5).1 = mkSnapshot "zzz" (newRoom 5)
    ∧ alookup (httpGetState ([] : Store) "zzz" 5).2 "zzz" = some (newRoom 5)
    ∧ rtGetState ([] : List (String × Snapshot)) (some "zzz") = none := by
  obtain ⟨h1, h2, h3, h4⟩ := claim4_getstate_materializes ([] : Store) "zzz" 5 rfl
  exact ⟨rfl, h1, h2, h4 [] rfl⟩

/-- C9: toggle_anonymous is a pure frame update. After the toggle, the
stored room is exactly the fetched room with only the anonymous field set
to the given boolean (participants with their names and symbols, the
catalog, ended, and createdAt all unchanged), and a snapshot served
afterwards still lists every participant name: visibility is driven by
the flag, not by data removal. -/
theorem claim9_toggle_anonymous_frame (s : Store) (rid : String) (b : Bool)
    (now n2 : Nat) :
    alookup (httpToggleAnonymous s rid b now) rid =
      some { (getRoom s rid now).1 with anonymous := b }
    ∧ (roomState (httpToggleAnonymous s rid b now) rid n2).1.participants.map
        (fun p => p.name)
      = (getRoom s rid now).1.participants.map (fun kp => (Prod.snd kp).name) := by
  have h1 : alookup (httpToggleAnonymous s rid b now) rid =
      some { (getRoom s rid now).1 with anonymous := b } := by
    simp only [httpToggleAnonymous]
    exact alookup_aset_self _ _ _
  refine ⟨h1, ?_⟩
  simp only [roomState, getRoom_of_mem _ _ _ _ h1, mkSnapshot]
  simp [List.map_map]

theorem selectFirst_no_match (ps : List (String × Participant))
    (name sym : String) (h : ∀ q ∈ ps, (Prod.snd q).name ≠ name) :
    selectFirst ps name sym = ps := by
  induction ps with
  | nil => rfl
  | cons kp rest ih =>
    obtain ⟨pid, p⟩ := kp
    have hp : p.name ≠ name := h (pid, p) (by simp)
    simp [selectFirst, hp, ih (fun q hq => h q (by simp [hq]))]

theorem selectFirst_decomp (pre post : List (String × Participant))
    (pid : String) (p : Participant) (name sym : String)
    (hp : p.name = name) (hpre : ∀ q ∈ pre, (Prod.snd q).name ≠ name) :
    selectFirst (pre ++ (pid, p) :: post) name sym =
      pre ++ (pid, { p with symbol := some sym }) :: post := by
  induction pre with
  | nil => simp [selectFirst, hp]
  | cons q rest ih =>
    obtain ⟨qid, qp⟩ := q
    have hq : qp.name ≠ name := hpre (qid, qp) (by simp)
    simp [selectFirst, hq, ih (fun x hx => hpre x (by simp [hx]))]

/-- C10: frame property of the HTTP select on an existing unended room.
The call succeeds; the new store is the old one with only room `rid`
replaced, and inside it only the participant list passed through the
first-match update: the first participant in insertion order whose stored
name equals the given name gets the given symbol, entries before and
after it are untouched; when no stored name matches, the whole store is
returned unchanged. -/
theorem claim10_select_frame (s : Store) (rid name sym : String) (now : Nat)
    (r : Room) (hl : alookup s rid = some r) (he : r.ended = false) :
    (httpSelect s rid name sym now).1 = true
    ∧ (httpSelect s rid name sym now).2 =
        aset s rid { r with participants := selectFirst r.participants name sym }
    ∧ (∀ pre post pid p,
         r.participants = pre ++ (pid, p) :: post → p.name = name →
         (∀ q ∈ pre, (Prod.snd q).name ≠ name) →
         selectFirst r.participants name sym =
           pre ++ (pid, { p with symbol := some sym }) :: post)
    ∧ ((∀ q ∈ r.participants, (Prod.snd q).name ≠ name) →
         (httpSelect s rid name sym now).2 = s) := by
  have hsel : httpSelect s rid name sym now =
      (true, aset s rid
        { r with participants := selectFirst r.participants name sym }) := by
    simp only [httpSelect, getRoom_of_mem s rid now r hl]
    simp [he]
  refine ⟨by simp [hsel], by simp [hsel], ?_, ?_⟩
  · intro pre post pid p hdec hp hpre
    rw [hdec]
    exact selectFirst_decomp pre post pid p name sym hp hpre
  · intro hnone
    simp only [hsel]
    rw [selectFirst_no_match r.participants name sym hnone]
    have hr2 : ({ r with participants := r.participants } : Room) = r := by
      cases r
      rfl
    rw [hr2]
    exact aset_eq_of_alookup s rid r hl

/-- Closed instance of C10: selecting for Alice succeeds and rewrites the
store as described; selecting for an unknown name leaves the store
exactly as it was. -/
theorem claim10_select_frame_witness :
    alookup c10Store "r" = some c10Room
    ∧ c10Room.ended = false
    ∧ (httpSelect c10Store "r" "Alice" "sun" 0).1 = true
    ∧ (httpSelect c10Store "r" "Alice" "sun" 0).2 =
        aset c10Store "r"
          { c10Room with participants :=
              selectFirst c10Room.participants "Alice" "sun" }
    ∧ (httpSelect c10Store "r" "Nobody" "sun" 0).2 = c10Store := by
  obtain ⟨h1, h2, h3, h4⟩ :=
    claim10_select_frame c10Store "r" "Alice" "sun" 0 c10Room rfl rfl
  obtain ⟨g1, g2, g3, g4⟩ :=
    claim10_select_frame c10Store "r" "Nobody" "sun" 0 c10Room rfl rfl
  exact ⟨rfl, rfl, h1, h2, g4 (by decide)⟩
